import Mathlib

/-!
Shallow embedding of the `lifecycling` library (src/index.js): a sequential
operation queue (`Queue`), a string-labelled state machine with arrival
waiters (`StateMachine`), and a lifecycle controller composing the two
(`Lifecycle`).  JavaScript promises are modelled by explicit handle ids:
an `until` waiter is a `Nat` id; a resolved waiter id is appended to the
machine's `resolved` list.  The queue's cooperative event loop is modelled
as a small-step transition system (`qstep`), where one step is one
run-to-completion segment of the JavaScript code between `await` points.
-/

/-- Result of invoking a user-supplied operation callback: the callback
either fulfils (`ok`) or throws a value (`err`), as in `await operation()`
in `Lifecycle.#run`. -/
inductive CbResult
  | ok
  | err (msg : String)
deriving Repr, DecidableEq

/-- Embedding of the `StateMachine` class of src/index.js.
`current` is the private field `#current`; `transitions` is the
adjacency map `#transitions` as an association list; `waiters` is the pair
of tables `#transitionPromises` / `#transitionResolvers` (one shared
promise per target state label, identified by a `Nat` handle id);
`nextId` generates fresh promise identities; `resolved` records, in
resolution order, the handle ids of promises that have been resolved. -/
structure StateMachine where
  current : String
  transitions : List (String × List String)
  waiters : List (String × Nat)
  nextId : Nat
  resolved : List Nat
deriving Repr, DecidableEq

/-- Embedding of `StateMachine.allows`: the allowed list for the current
state (`this.#transitions[this.#current] || []`) contains `toState`. -/
def StateMachine.allows (sm : StateMachine) (toState : String) : Bool :=
  ((sm.transitions.lookup sm.current).getD []).contains toState

/-- Result of `StateMachine.until`: either an already-resolved promise
(`Promise.resolve()`, the `immediate` case) or the shared waiter promise
for the queried state, identified by its handle id. -/
inductive UntilResult
  | immediate
  | handle (id : Nat)
deriving Repr, DecidableEq

/-- Embedding of `StateMachine.until`: if the current state equals
`queryState`, return an immediately-resolved promise without touching the
waiter table; otherwise return the existing shared waiter for
`queryState`, creating one (with a fresh handle id) only if absent. -/
def StateMachine.until (sm : StateMachine) (queryState : String) :
    StateMachine × UntilResult :=
  if sm.current == queryState then
    (sm, .immediate)
  else
    match sm.waiters.lookup queryState with
    | some h => (sm, .handle h)
    | none =>
      ({ sm with
          waiters := sm.waiters ++ [(queryState, sm.nextId)],
          nextId := sm.nextId + 1 },
        .handle sm.nextId)

/-- The mutation performed by `StateMachine.transition` once the allows
check has passed: set `#current` to `toState`, and if a resolver is
registered for `toState`, invoke it (append its handle id to `resolved`)
and delete both the resolver and the promise entry. -/
def StateMachine.doTransition (sm : StateMachine) (toState : String) :
    StateMachine :=
  { sm with
      current := toState,
      waiters := sm.waiters.filter (fun p => p.1 != toState),
      resolved :=
        match sm.waiters.lookup toState with
        | some h => sm.resolved ++ [h]
        | none => sm.resolved }

/-- Embedding of `StateMachine.transition`: throw
`Invalid transition from <current> to <toState>` when the transition is
not allowed, otherwise perform the mutation `doTransition`. -/
def StateMachine.transition (sm : StateMachine) (toState : String) :
    Except String StateMachine :=
  if sm.allows toState then .ok (sm.doTransition toState)
  else .error ("Invalid transition from " ++ sm.current ++ " to " ++ toState)

/-! ## The sequential queue, as a small-step event system

`Queue.enqueue` and `Queue.#processQueue` are cooperative async code.  The
JavaScript event loop runs each segment between `await` points to
completion, so the queue's behaviour is captured by two atomic events:

* `enqueue id` — a caller pushes an item (its handle is `id`); if the
  `#processing` flag is clear, `#processQueue` starts synchronously and
  invokes the processor on the head item (`this.#items[0]`), which is then
  in flight.
* `complete r` — the in-flight processor invocation settles with outcome
  `r`; the drain loop resumes: it settles the head item's handle with `r`,
  shifts it off, and either invokes the processor on the new head or, if
  the list is empty, clears `#processing`.

Settlement order of the handles is the order of the `resolve`/`reject`
calls, recorded in `settled`. -/

deriving instance DecidableEq for Except

/-- State of one `Queue` instance together with its event-loop context:
`items` is `#items` (handle ids, head first); `processing` is
`#processing`; `inFlight` lists the processor invocations currently
awaited (the code is supposed to keep this at size at most one); `settled`
records, in settlement order, each settled handle and its outcome. -/
structure QState where
  items : List Nat
  processing : Bool
  inFlight : List Nat
  settled : List (Nat × Except String Unit)
deriving Repr, DecidableEq

/-- A fresh queue: no items, not processing, nothing in flight. -/
def initQ : QState := ⟨[], false, [], []⟩

/-- Events the queue reacts to. -/
inductive QEvent
  | enqueue (id : Nat)
  | complete (r : Except String Unit)
deriving Repr, DecidableEq

/-- One run-to-completion step of the queue code.  `none` means the event
is not enabled (a `complete` with no processor invocation in flight). -/
def qstep (s : QState) : QEvent → Option QState
  | .enqueue id =>
    let its := s.items ++ [id]
    if s.processing then
      some { s with items := its }
    else
      some { items := its, processing := true,
             inFlight := s.inFlight ++ [its.headD 0], settled := s.settled }
  | .complete r =>
    match s.inFlight with
    | [] => none
    | _ :: fl =>
      let done := s.items.headD 0
      let rest := s.items.tail
      let stl := s.settled ++ [(done, r)]
      if rest.isEmpty then
        some { items := rest, processing := false, inFlight := fl,
               settled := stl }
      else
        some { items := rest, processing := s.processing,
               inFlight := fl ++ [rest.headD 0], settled := stl }

/-- Run a sequence of queue events from a given state; `none` as soon as
an event fires while disabled. -/
def execTrace (s : QState) : List QEvent → Option QState
  | [] => some s
  | e :: es =>
    match qstep s e with
    | some s' => execTrace s' es
    | none => none

/-- The handle ids enqueued by a trace, in submission order. -/
def enqueuedOf : List QEvent → List Nat
  | [] => []
  | .enqueue id :: es => id :: enqueuedOf es
  | .complete _ :: es => enqueuedOf es

/-! ## The lifecycle controller -/

/-- The frozen adjacency map built in the `Lifecycle` constructor. -/
def lcTransitions : List (String × List String) :=
  [("init", ["opening"]),
   ("opening", ["opened"]),
   ("opened", ["suspending", "closing"]),
   ("suspending", ["suspended", "closing"]),
   ("suspended", ["resuming", "closing"]),
   ("resuming", ["resumed"]),
   ("resumed", ["suspending", "closing"]),
   ("closing", ["closed"]),
   ("closed", [])]

/-- The nine lifecycle state labels. -/
def lifecycleStates : List String :=
  ["init", "opening", "opened", "suspending", "suspended", "resuming",
   "resumed", "closing", "closed"]

/-- The four keys of the `#operations` table (missing constructor entries
default to a no-op, so the table always has exactly these keys). -/
def operatorNames : List String := ["open", "close", "suspend", "resume"]

/-- A queued work item `{operation, interimState, toState}`; the operation
callback is identified by its name in the `#operations` table. -/
structure Descriptor where
  opName : String
  interimState : String
  toState : String
deriving Repr, DecidableEq

/-- Descriptor enqueued by `Lifecycle.open`. -/
def openDesc : Descriptor := ⟨"open", "opening", "opened"⟩

/-- Descriptor enqueued by `Lifecycle.close`. -/
def closeDesc : Descriptor := ⟨"close", "closing", "closed"⟩

/-- Descriptor enqueued by `Lifecycle.suspend`. -/
def suspendDesc : Descriptor := ⟨"suspend", "suspending", "suspended"⟩

/-- Descriptor enqueued by `Lifecycle.resume`. -/
def resumeDesc : Descriptor := ⟨"resume", "resuming", "resumed"⟩

/-- Everything one execution of `Lifecycle.#run` produces: the state
machine afterwards, the observer notifications emitted (in order), whether
the operation callback was invoked, and the promise outcome delivered to
the caller. -/
structure RunOutcome where
  sm : StateMachine
  notes : List String
  invoked : Bool
  result : Except String Unit
deriving Repr, DecidableEq

/-- Embedding of `Lifecycle.#run`.  The operation callback is modelled as
a function `cb` on the state machine (during `await operation()` the
callback, or code it lets run, may observe and replace the controller's
machine — e.g. via `until` or `reset` — before settling): if the current
state does not allow `interimState`, return success untouched; otherwise
transition to `interimState`, notify, run the callback; a thrown error
propagates; on success, transition to `toState` and notify only when the
state is still `interimState` and allows `toState`. -/
def run (cb : StateMachine → StateMachine × CbResult) (sm : StateMachine)
    (interimState toState : String) : RunOutcome :=
  if sm.allows interimState then
    let sm1 := sm.doTransition interimState
    match cb sm1 with
    | (sm2, .err e) => ⟨sm2, [interimState], true, .error e⟩
    | (sm2, .ok) =>
      if sm2.current == interimState && sm2.allows toState then
        ⟨sm2.doTransition toState, [interimState, toState], true, .ok ()⟩
      else
        ⟨sm2, [interimState], true, .ok ()⟩
  else
    ⟨sm, [], false, .ok ()⟩

/-- Observable state of one `Lifecycle` instance: its state machine, the
record of all observer notifications (`#onTransition` calls) so far, and
the record of operation-callback invocations (by operation name) so far. -/
structure Lifecycle where
  sm : StateMachine
  obsLog : List String
  invocations : List String
deriving Repr, DecidableEq

/-- A freshly constructed `Lifecycle`: machine at `init` over the frozen
graph, no notifications, no callback invocations. -/
def Lifecycle.mkNew : Lifecycle :=
  ⟨⟨"init", lcTransitions, [], 0, []⟩, [], []⟩

/-- The queue processor of the controller, executing one dequeued
descriptor: `Lifecycle.#run` where the named callback immediately settles
with `ops name` (it does not touch the state machine).  Returns the
controller afterwards and the outcome delivered to the enqueuer. -/
def Lifecycle.runStep (ops : String → CbResult) (lc : Lifecycle)
    (d : Descriptor) : Lifecycle × Except String Unit :=
  let out := run (fun sm => (sm, ops d.opName)) lc.sm d.interimState d.toState
  (⟨out.sm, lc.obsLog ++ out.notes,
    lc.invocations ++ (if out.invoked then [d.opName] else [])⟩,
   out.result)

/-- Drain a list of already-enqueued descriptors in order (the queue
serializes them), collecting each caller's outcome. -/
def Lifecycle.processAll (ops : String → CbResult) (lc : Lifecycle) :
    List Descriptor → Lifecycle × List (Except String Unit)
  | [] => (lc, [])
  | d :: ds =>
    let p := Lifecycle.runStep ops lc d
    let q := Lifecycle.processAll ops p.1 ds
    (q.1, p.2 :: q.2)

/-- Embedding of `Lifecycle.transition(operator, interimState, toState)`
followed by the queued execution of its descriptor: unknown operator names
throw `Unknown operator name: <operator>` without enqueueing; otherwise
the descriptor runs as usual. -/
def Lifecycle.genericTransition (ops : String → CbResult) (lc : Lifecycle)
    (operator interimState toState : String) :
    Lifecycle × Except String Unit :=
  if operatorNames.contains operator then
    Lifecycle.runStep ops lc ⟨operator, interimState, toState⟩
  else
    (lc, .error ("Unknown operator name: " ++ operator))

/-- Embedding of `Lifecycle.reset`: replace the state machine with a fresh
`new StateMachine(this.#transitions)` pinned at `init` with empty waiter
tables.  Promise identity is global — previously created waiter promises
keep their ids and their resolution status — so the fresh machine inherits
`nextId` (new promises are distinct objects from old ones) and `resolved`
(old resolutions persist), while `waiters` is empty. -/
def Lifecycle.reset (lc : Lifecycle) : Lifecycle :=
  { lc with
      sm := ⟨"init", lcTransitions, [], lc.sm.nextId, lc.sm.resolved⟩ }

/-- A public call on the controller, for quantifying over call sequences;
`transitionCall` carries arbitrary caller-chosen labels. -/
inductive LOp
  | openCall
  | closeCall
  | suspendCall
  | resumeCall
  | resetCall
  | transitionCall (operator interimState toState : String)
  | untilCall (queryState : String)
deriving Repr, DecidableEq

/-- Apply one public call: the four named operations and the generic
transition enqueue a descriptor which the queue then runs; `reset`
replaces the machine; `until` queries or registers a waiter. -/
def Lifecycle.applyOp (ops : String → CbResult) (lc : Lifecycle) :
    LOp → Lifecycle
  | .openCall => (Lifecycle.runStep ops lc openDesc).1
  | .closeCall => (Lifecycle.runStep ops lc closeDesc).1
  | .suspendCall => (Lifecycle.runStep ops lc suspendDesc).1
  | .resumeCall => (Lifecycle.runStep ops lc resumeDesc).1
  | .resetCall => lc.reset
  | .transitionCall operator i t =>
    (Lifecycle.genericTransition ops lc operator i t).1
  | .untilCall q => { lc with sm := (lc.sm.until q).1 }

/-- Apply a sequence of public calls in order. -/
def Lifecycle.applyOps (ops : String → CbResult) (lc : Lifecycle)
    (l : List LOp) : Lifecycle :=
  l.foldl (Lifecycle.applyOp ops) lc

/-- Callback table whose four callbacks all succeed (the default no-ops). -/
def opsOk : String → CbResult := fun _ => .ok

/-- Callback table where `open` throws `"boom"` and the rest succeed. -/
def opsBoom : String → CbResult :=
  fun n => if n == "open" then .err "boom" else .ok

/-! ## Association-list helper lemmas -/

/-- Unfolding lemma for `List.lookup` on a cons cell, with propositional
equality in place of `==`. -/
lemma lookup_cons {β : Type} (S k : String) (v : β) (l : List (String × β)) :
    List.lookup S ((k, v) :: l) =
      if S = k then some v else List.lookup S l := by
  by_cases h : S = k
  · simp [List.lookup, h]
  · have hb : (S == k) = false := by simp [h]
    simp [List.lookup, hb, h]

/-- After removing every entry keyed `T`, looking up `T` fails. -/
lemma lookup_filter_self {β : Type} (l : List (String × β)) (T : String) :
    (l.filter (fun p => p.1 != T)).lookup T = none := by
  induction l with
  | nil => rfl
  | cons p l ih =>
    by_cases hp : p.1 = T
    · simp [List.filter, hp, ih]
    · have hne : (p.1 != T) = true := by simp [hp]
      simp only [List.filter, hne]
      rw [show p = (p.1, p.2) from rfl, lookup_cons]
      have hT : ¬T = p.1 := fun h => hp h.symm
      simp [hT, ih]

/-- Removing every entry keyed `T` does not change lookups at other keys. -/
lemma lookup_filter_ne {β : Type} (l : List (String × β)) (T S : String)
    (h : S ≠ T) :
    (l.filter (fun p => p.1 != T)).lookup S = l.lookup S := by
  induction l with
  | nil => rfl
  | cons p l ih =>
    rw [show p = (p.1, p.2) from rfl]
    by_cases hp : p.1 = T
    · have hb : ((p.1, p.2).1 != T) = false := by simp [hp]
      simp only [List.filter, hb]
      rw [lookup_cons]
      have hS : ¬S = p.1 := fun hS => h (hS.trans hp)
      simp [hS, ih]
    · have hb : ((p.1, p.2).1 != T) = true := by simp [hp]
      simp only [List.filter, hb]
      rw [lookup_cons, lookup_cons]
      by_cases hS : S = p.1 <;> simp [hS, ih]

/-- Lookup skips a prefix in which the key is absent. -/
lemma lookup_append_left_none {β : Type} (l₁ l₂ : List (String × β))
    (S : String)
    (h : l₁.lookup S = none) : (l₁ ++ l₂).lookup S = l₂.lookup S := by
  induction l₁ with
  | nil => rfl
  | cons p l ih =>
    rw [show p = (p.1, p.2) from rfl] at h ⊢
    rw [lookup_cons] at h
    by_cases hS : S = p.1
    · simp [hS] at h
    · rw [List.cons_append, lookup_cons]
      simp only [hS, if_false] at h ⊢
      exact ih h

/-- A successful lookup exhibits a member of the list. -/
lemma mem_of_lookup_eq_some {β : Type} (l : List (String × β)) (S : String)
    (v : β)
    (h : l.lookup S = some v) : (S, v) ∈ l := by
  induction l with
  | nil => simp [List.lookup] at h
  | cons p l ih =>
    rw [show p = (p.1, p.2) from rfl] at h ⊢
    rw [lookup_cons] at h
    by_cases hS : S = p.1
    · simp [hS] at h
      simp [hS, ← h]
    · simp only [hS, if_false] at h
      simp [ih h]

/-! ## Claim theorems: the state machine -/

/-- C5: `StateMachine.transition T` moves the current state to `T` when
`allows T` holds, resolving the waiter registered for exactly `T` (its
handle joins `resolved`) and clearing that waiter slot while leaving every
other slot untouched; otherwise it fails with an error naming the current
state and `T`, returning no new machine. -/
theorem sm_transition_spec (sm : StateMachine) (T : String) :
    (sm.allows T = true →
      ∃ sm', sm.transition T = .ok sm' ∧
        sm'.current = T ∧
        sm'.waiters.lookup T = none ∧
        (∀ S, S ≠ T → sm'.waiters.lookup S = sm.waiters.lookup S) ∧
        (∀ h, sm.waiters.lookup T = some h →
          sm'.resolved = sm.resolved ++ [h]) ∧
        (sm.waiters.lookup T = none → sm'.resolved = sm.resolved)) ∧
    (sm.allows T = false →
      sm.transition T =
        .error ("Invalid transition from " ++ sm.current ++ " to " ++ T)) := by
  constructor
  · intro hA
    refine ⟨sm.doTransition T, ?_, rfl, ?_, ?_, ?_, ?_⟩
    · simp [StateMachine.transition, hA]
    · exact lookup_filter_self sm.waiters T
    · intro S hS
      exact lookup_filter_ne sm.waiters T S hS
    · intro h hl
      simp [StateMachine.doTransition, hl]
    · intro hl
      simp [StateMachine.doTransition, hl]
  · intro hA
    simp [StateMachine.transition, hA]

/-- Witness for C5: a machine parked at `opening` with a waiter for
`opened` transitions to `opened`, resolving that waiter. -/
theorem sm_transition_spec_witness :
    (StateMachine.mk "opening" lcTransitions [("opened", 5)] 6 []).allows
        "opened" = true ∧
    (∃ sm', (StateMachine.mk "opening" lcTransitions [("opened", 5)] 6
          []).transition "opened" = .ok sm' ∧
        sm'.current = "opened" ∧
        sm'.waiters.lookup "opened" = none ∧
        (∀ S, S ≠ "opened" →
          sm'.waiters.lookup S =
            (StateMachine.mk "opening" lcTransitions [("opened", 5)] 6
                []).waiters.lookup S) ∧
        (∀ h, (StateMachine.mk "opening" lcTransitions [("opened", 5)] 6
              []).waiters.lookup "opened" = some h →
          sm'.resolved =
            (StateMachine.mk "opening" lcTransitions [("opened", 5)] 6
                []).resolved ++ [h]) ∧
        ((StateMachine.mk "opening" lcTransitions [("opened", 5)] 6
              []).waiters.lookup "opened" = none →
          sm'.resolved =
            (StateMachine.mk "opening" lcTransitions [("opened", 5)] 6
                []).resolved)) :=
  ⟨by decide,
    (sm_transition_spec
      (StateMachine.mk "opening" lcTransitions [("opened", 5)] 6 [])
      "opened").1 (by decide)⟩

/-- C6: `until S` on a machine already at `S` resolves immediately and
registers nothing; otherwise it returns the shared waiter handle for `S`
(creating it if absent), a repeated `until S` returns that same handle,
and a transition landing on `S` resolves it. -/
theorem sm_until_spec (sm : StateMachine) (S : String) :
    (sm.current = S → sm.until S = (sm, .immediate)) ∧
    (sm.current ≠ S →
      ∃ sm' h, sm.until S = (sm', .handle h) ∧
        sm'.current = sm.current ∧
        sm'.waiters.lookup S = some h ∧
        sm'.until S = (sm', .handle h) ∧
        (∀ sm'', sm'.transition S = .ok sm'' →
          sm''.resolved = sm'.resolved ++ [h])) := by
  constructor
  · intro hc
    simp [StateMachine.until, hc]
  · intro hc
    have hcb : (sm.current == S) = false := by simp [hc]
    rcases hl : sm.waiters.lookup S with _ | h
    · have hnew : (sm.waiters ++ [(S, sm.nextId)]).lookup S = some sm.nextId :=
        (lookup_append_left_none sm.waiters [(S, sm.nextId)] S hl).trans
          (by simp [lookup_cons])
      refine ⟨⟨sm.current, sm.transitions, sm.waiters ++ [(S, sm.nextId)],
        sm.nextId + 1, sm.resolved⟩, sm.nextId, ?_, rfl, hnew, ?_, ?_⟩
      · simp [StateMachine.until, hcb, hl]
      · simp [StateMachine.until, hcb, hnew]
      · intro sm'' ht
        simp only [StateMachine.transition] at ht
        split at ht
        · cases ht
          simp [StateMachine.doTransition, hnew]
        · cases ht
    · refine ⟨sm, h, ?_, rfl, hl, ?_, ?_⟩
      · simp [StateMachine.until, hcb, hl]
      · simp [StateMachine.until, hcb, hl]
      · intro sm'' ht
        simp only [StateMachine.transition] at ht
        split at ht
        · cases ht
          simp [StateMachine.doTransition, hl]
        · cases ht

/-- Witness for C6: waiting for `opened` on a fresh machine at `init`
creates the shared waiter slot. -/
theorem sm_until_spec_witness :
    (StateMachine.mk "init" lcTransitions [] 0 []).current ≠ "opened" ∧
    (∃ sm' h,
      (StateMachine.mk "init" lcTransitions [] 0 []).until "opened" =
          (sm', .handle h) ∧
        sm'.current = (StateMachine.mk "init" lcTransitions [] 0 []).current ∧
        sm'.waiters.lookup "opened" = some h ∧
        sm'.until "opened" = (sm', .handle h) ∧
        (∀ sm'', sm'.transition "opened" = .ok sm'' →
          sm''.resolved = sm'.resolved ++ [h])) :=
  ⟨by decide,
    (sm_until_spec (StateMachine.mk "init" lcTransitions [] 0 [])
      "opened").2 (by decide)⟩

/-! ## Claim theorems: the lifecycle runner -/

/-- When the machine does not allow the interim state, the queue processor
returns the lifecycle unchanged with a success outcome. -/
lemma runStep_noop (ops : String → CbResult) (lc : Lifecycle) (d : Descriptor)
    (h : lc.sm.allows d.interimState = false) :
    Lifecycle.runStep ops lc d = (lc, .ok ()) := by
  simp [Lifecycle.runStep, run, h]

/-- C1: for every dequeued descriptor whose interim state the current
state does not allow, the runner returns success without invoking the
callback and without changing the machine; and draining two `open()`
descriptors enqueued concurrently on a fresh controller invokes the open
callback exactly once, succeeds for both callers, and ends at `opened`. -/
theorem runner_disallowed_noop_and_open_dedup :
    (∀ (cb : StateMachine → StateMachine × CbResult) (sm : StateMachine)
        (i t : String), sm.allows i = false →
        run cb sm i t = ⟨sm, [], false, .ok ()⟩) ∧
    ((Lifecycle.processAll opsOk Lifecycle.mkNew
        [openDesc, openDesc]).1.sm.current = "opened" ∧
      (Lifecycle.processAll opsOk Lifecycle.mkNew
        [openDesc, openDesc]).1.invocations = ["open"] ∧
      (Lifecycle.processAll opsOk Lifecycle.mkNew
        [openDesc, openDesc]).2 = [.ok (), .ok ()]) := by
  refine ⟨?_, by decide, by decide, by decide⟩
  intro cb sm i t h
  simp [run, h]

/-- Witness for C1: a fresh controller does not allow `closing`, so a
`close` descriptor is a silent no-op success. -/
theorem runner_disallowed_noop_and_open_dedup_witness :
    Lifecycle.mkNew.sm.allows "closing" = false ∧
    run (fun sm => (sm, CbResult.ok)) Lifecycle.mkNew.sm "closing" "closed" =
      ⟨Lifecycle.mkNew.sm, [], false, .ok ()⟩ :=
  ⟨by decide,
    runner_disallowed_noop_and_open_dedup.1 (fun sm => (sm, CbResult.ok))
      Lifecycle.mkNew.sm "closing" "closed" (by decide)⟩

/-- First `open()` on a fresh controller whose open callback throws. -/
def boomStep1 : Lifecycle × Except String Unit :=
  Lifecycle.runStep opsBoom Lifecycle.mkNew openDesc

/-- Second `open()`, without an intervening `reset()`. -/
def boomStep2 : Lifecycle × Except String Unit :=
  Lifecycle.runStep opsBoom boomStep1.1 openDesc

/-- The `reset()` after the failed opens. -/
def boomStep3 : Lifecycle := boomStep2.1.reset

/-- A further `open()` after the reset. -/
def boomStep4 : Lifecycle × Except String Unit :=
  Lifecycle.runStep opsBoom boomStep3 openDesc

/-- C3: with an open callback that throws `"boom"`, the first `open()`
rejects with `"boom"` and parks the state at `opening` after one callback
invocation; a second `open()` without `reset()` succeeds as a no-op
without invoking the callback again, state still `opening`; `reset()`
returns the state to `init`; and a further `open()` invokes the callback
a second time. -/
theorem open_boom_scenario :
    boomStep1.2 = .error "boom" ∧ boomStep1.1.sm.current = "opening" ∧
    boomStep1.1.invocations = ["open"] ∧
    boomStep2.2 = .ok () ∧ boomStep2.1.sm.current = "opening" ∧
    boomStep2.1.invocations = ["open"] ∧
    boomStep3.sm.current = "init" ∧
    boomStep4.1.invocations = ["open", "open"] := by decide

/-- C4 counterexample: the generic lifecycle `transition` with the known
operator `open` and the illegal interim edge `init → closing` does NOT
fail with an InvalidTransition error — it returns success and leaves the
controller untouched. -/
theorem generic_transition_counterexample :
    operatorNames.contains "open" = true ∧
    Lifecycle.mkNew.sm.allows "closing" = false ∧
    (Lifecycle.genericTransition opsOk Lifecycle.mkNew "open" "closing"
        "closed").2 = .ok () ∧
    (Lifecycle.genericTransition opsOk Lifecycle.mkNew "open" "closing"
        "closed").1 = Lifecycle.mkNew := by decide

/-- C4 amended: after operator lookup succeeds, the generic lifecycle
`transition(operator, interimState, toState)` with an interim state that
is not a legal edge from the current state no-ops exactly like `open()`,
`suspend()`, `resume()` and `close()` do: all five return success without
raising InvalidTransition and without changing the controller. -/
theorem generic_transition_noop_on_disallowed (ops : String → CbResult)
    (lc : Lifecycle) :
    (∀ operator i t, operatorNames.contains operator = true →
      lc.sm.allows i = false →
      Lifecycle.genericTransition ops lc operator i t = (lc, .ok ())) ∧
    (lc.sm.allows "opening" = false →
      Lifecycle.runStep ops lc openDesc = (lc, .ok ())) ∧
    (lc.sm.allows "suspending" = false →
      Lifecycle.runStep ops lc suspendDesc = (lc, .ok ())) ∧
    (lc.sm.allows "resuming" = false →
      Lifecycle.runStep ops lc resumeDesc = (lc, .ok ())) ∧
    (lc.sm.allows "closing" = false →
      Lifecycle.runStep ops lc closeDesc = (lc, .ok ())) := by
  refine ⟨?_, ?_, ?_, ?_, ?_⟩
  · intro operator i t hop h
    have hmem : operator ∈ operatorNames := by simpa using hop
    simp [Lifecycle.genericTransition, hmem,
      runStep_noop ops lc ⟨operator, i, t⟩ h]
  all_goals intro h
  all_goals exact runStep_noop ops lc _ h

/-- Witness for the amended C4: on a fresh controller, the generic
transition through operator `open` to the illegal interim `closing` is a
silent no-op success. -/
theorem generic_transition_noop_on_disallowed_witness :
    operatorNames.contains "open" = true ∧
    Lifecycle.mkNew.sm.allows "closing" = false ∧
    Lifecycle.genericTransition opsOk Lifecycle.mkNew "open" "closing"
      "closed" = (Lifecycle.mkNew, .ok ()) :=
  ⟨by decide, by decide,
    (generic_transition_noop_on_disallowed opsOk Lifecycle.mkNew).1
      "open" "closing" "closed" (by decide) (by decide)⟩

/-- C7: when the runner executes and its callback succeeds, the final
transition to `toState` and its observer notification happen exactly when
after the callback the state is still the interim state and an edge to
`toState` exists; otherwise both are skipped and the runner still returns
success. -/
theorem runner_final_transition_iff
    (cb : StateMachine → StateMachine × CbResult) (sm : StateMachine)
    (i t : String) (hA : sm.allows i = true)
    (hok : (cb (sm.doTransition i)).2 = CbResult.ok) :
    (run cb sm i t).result = .ok () ∧
    (((cb (sm.doTransition i)).1.current = i ∧
        (cb (sm.doTransition i)).1.allows t = true) →
      (run cb sm i t).notes = [i, t] ∧
      (run cb sm i t).sm = (cb (sm.doTransition i)).1.doTransition t) ∧
    (¬((cb (sm.doTransition i)).1.current = i ∧
        (cb (sm.doTransition i)).1.allows t = true) →
      (run cb sm i t).notes = [i] ∧
      (run cb sm i t).sm = (cb (sm.doTransition i)).1) := by
  rcases hcb : cb (sm.doTransition i) with ⟨sm2, r⟩
  rw [hcb] at hok
  simp at hok
  subst hok
  by_cases h1 : sm2.current = i
  · by_cases h2 : sm2.allows t = true
    · simp [run, hA, hcb, h1, h2]
    · simp only [Bool.not_eq_true] at h2
      simp [run, hA, hcb, h1, h2]
  · have h1b : (sm2.current == i) = false := by simp [h1]
    simp [run, hA, hcb, h1b, h1]

/-- Witness for C7: a successful `open` callback on a fresh controller
performs the final `opening → opened` transition and both notifications. -/
theorem runner_final_transition_iff_witness :
    Lifecycle.mkNew.sm.allows "opening" = true ∧
    ((fun sm => (sm, CbResult.ok)) (Lifecycle.mkNew.sm.doTransition
        "opening")).2 = CbResult.ok ∧
    ((run (fun sm => (sm, CbResult.ok)) Lifecycle.mkNew.sm "opening"
          "opened").result = .ok () ∧
      ((((fun sm => (sm, CbResult.ok)) (Lifecycle.mkNew.sm.doTransition
            "opening")).1.current = "opening" ∧
          (((fun sm => (sm, CbResult.ok)) (Lifecycle.mkNew.sm.doTransition
            "opening")).1.allows "opened") = true) →
        (run (fun sm => (sm, CbResult.ok)) Lifecycle.mkNew.sm "opening"
            "opened").notes = ["opening", "opened"] ∧
        (run (fun sm => (sm, CbResult.ok)) Lifecycle.mkNew.sm "opening"
            "opened").sm = (((fun sm => (sm, CbResult.ok))
              (Lifecycle.mkNew.sm.doTransition "opening")).1.doTransition
                "opened")) ∧
      (¬(((fun sm => (sm, CbResult.ok)) (Lifecycle.mkNew.sm.doTransition
            "opening")).1.current = "opening" ∧
          (((fun sm => (sm, CbResult.ok)) (Lifecycle.mkNew.sm.doTransition
            "opening")).1.allows "opened") = true) →
        (run (fun sm => (sm, CbResult.ok)) Lifecycle.mkNew.sm "opening"
            "opened").notes = ["opening"] ∧
        (run (fun sm => (sm, CbResult.ok)) Lifecycle.mkNew.sm "opening"
            "opened").sm = ((fun sm => (sm, CbResult.ok))
              (Lifecycle.mkNew.sm.doTransition "opening")).1)) :=
  ⟨by decide, by decide,
    runner_final_transition_iff (fun sm => (sm, CbResult.ok))
      Lifecycle.mkNew.sm "opening" "opened" (by decide) (by decide)⟩

/-! ## Claim theorems: the sequential queue -/

/-- Reachability invariant of the queue: the ids settled so far followed
by the pending ids are exactly the ids enqueued so far, and while draining
the single in-flight invocation is the head item (none when idle). -/
def QInv (enq : List Nat) (s : QState) : Prop :=
  s.settled.map Prod.fst ++ s.items = enq ∧
  (if s.processing then s.inFlight = s.items.take 1 ∧ s.items ≠ []
   else s.inFlight = [] ∧ s.items = [])

lemma qstep_enqueue_inv (s s' : QState) (enq : List Nat) (id : Nat)
    (hI : QInv enq s) (h : qstep s (.enqueue id) = some s') :
    QInv (enq ++ [id]) s' := by
  rcases hI with ⟨h1, h2⟩
  cases hp : s.processing
  · simp only [hp, if_false, Bool.false_eq_true] at h2
    rcases h2 with ⟨hf, hi⟩
    simp [qstep, hp, hi, hf] at h
    subst h
    constructor
    · simp [hi] at h1
      simp [hi, h1]
    · simp
  · simp only [hp, if_true] at h2
    rcases h2 with ⟨hf, hi⟩
    simp [qstep, hp] at h
    subst h
    constructor
    · simp [← h1]
    · have hlen : 1 ≤ s.items.length := List.length_pos.mpr hi
      simp [hp, hf, List.take_append_of_le_length hlen, hi]

lemma qstep_complete_inv (s s' : QState) (enq : List Nat)
    (r : Except String Unit) (hI : QInv enq s)
    (h : qstep s (.complete r) = some s') : QInv enq s' := by
  rcases hI with ⟨h1, h2⟩
  cases hp : s.processing
  · simp only [hp, if_false, Bool.false_eq_true] at h2
    simp [qstep, h2.1] at h
  · simp only [hp, if_true] at h2
    rcases h2 with ⟨hf, hi⟩
    rcases hd : s.items with _ | ⟨d, rest⟩
    · exact absurd hd hi
    · rw [hd] at hf
      simp at hf
      rw [show QEvent.complete r = QEvent.complete r from rfl] at h
      simp [qstep, hf, hd] at h
      rcases hrest : rest with _ | ⟨j, rest'⟩
      · simp [hrest] at h
        subst h
        constructor
        · simp [← h1, hd, hrest]
        · simp
      · simp [hrest] at h
        subst h
        constructor
        · simp [← h1, hd, hrest]
        · simp [hp]

lemma execTrace_inv (es : List QEvent) (s s' : QState) (enq : List Nat)
    (hI : QInv enq s) (h : execTrace s es = some s') :
    QInv (enq ++ enqueuedOf es) s' := by
  induction es generalizing s enq with
  | nil =>
    simp [execTrace] at h
    subst h
    simpa [enqueuedOf] using hI
  | cons e es ih =>
    rcases he : qstep s e with _ | s1
    · simp [execTrace, he] at h
    · simp only [execTrace, he] at h
      cases e with
      | enqueue id =>
        have := ih s1 (enq ++ [id]) (qstep_enqueue_inv s s1 enq id hI he) h
        simpa [enqueuedOf, List.append_assoc] using this
      | complete r =>
        have := ih s1 enq (qstep_complete_inv s s1 enq r hI he) h
        simpa [enqueuedOf] using this

/-- C2: along every queue trace, at most one processor invocation is in
flight, and the settled handles followed by the still-pending handles are
exactly the enqueued handles in submission order — so completion order
equals enqueue order regardless of submission interleaving and of each
item's processing latency. -/
theorem queue_fifo_single_flight (es : List QEvent) (s' : QState)
    (h : execTrace initQ es = some s') :
    s'.settled.map Prod.fst ++ s'.items = enqueuedOf es ∧
    s'.inFlight.length ≤ 1 := by
  have hI : QInv [] initQ := by
    constructor
    · rfl
    · simp [initQ]
  have := execTrace_inv es initQ s' [] hI h
  rcases this with ⟨h1, h2⟩
  refine ⟨by simpa using h1, ?_⟩
  by_cases hp : s'.processing
  · rw [if_pos hp] at h2
    rw [h2.1]
    simp [List.length_take_le 1 s'.items]
  · rw [if_neg hp] at h2
    simp [h2.1]

/-- Witness for C2: a trace of two overlapping submissions with distinct
latencies settles them in enqueue order with at most one in flight. -/
theorem queue_fifo_single_flight_witness :
    execTrace initQ [QEvent.enqueue 10, QEvent.enqueue 11,
        QEvent.complete (.ok ()), QEvent.complete (.error "e")] =
      some ⟨[], false, [], [(10, .ok ()), (11, .error "e")]⟩ ∧
    ((QState.mk [] false [] [(10, .ok ()), (11, .error "e")]).settled.map
          Prod.fst ++
        (QState.mk [] false [] [(10, .ok ()), (11, .error "e")]).items =
      enqueuedOf [QEvent.enqueue 10, QEvent.enqueue 11,
        QEvent.complete (.ok ()), QEvent.complete (.error "e")] ∧
      (QState.mk [] false [] [(10, .ok ()),
        (11, .error "e")]).inFlight.length ≤ 1) :=
  ⟨by decide,
    queue_fifo_single_flight [QEvent.enqueue 10, QEvent.enqueue 11,
        QEvent.complete (.ok ()), QEvent.complete (.error "e")]
      ⟨[], false, [], [(10, .ok ()), (11, .error "e")]⟩ (by decide)⟩

/-- C8: when processing the head item `i` fails, only `i`'s handle is
rejected (with the raised error); the next item `j` is processed
immediately after and can still succeed, its handle settling right behind
`i`'s. -/
theorem queue_failure_isolated (s : QState) (f i j : Nat) (rest : List Nat)
    (e : String) (hitems : s.items = i :: j :: rest)
    (hfl : s.inFlight = [f]) :
    ∃ s1 s2, qstep s (.complete (.error e)) = some s1 ∧
      qstep s1 (.complete (.ok ())) = some s2 ∧
      s1.settled = s.settled ++ [(i, .error e)] ∧
      s2.settled = s.settled ++ [(i, .error e), (j, .ok ())] ∧
      s2.items = rest := by
  rcases hr : rest with _ | ⟨k, rest'⟩
  · subst hr
    refine ⟨⟨[j], s.processing, [j], s.settled ++ [(i, .error e)]⟩,
      ⟨[], false, [], s.settled ++ [(i, .error e), (j, .ok ())]⟩,
      ?_, ?_, ?_, ?_, ?_⟩ <;> simp [qstep, hitems, hfl]
  · subst hr
    refine ⟨⟨j :: k :: rest', s.processing, [j], s.settled ++ [(i, .error e)]⟩,
      ⟨k :: rest', s.processing, [k],
        s.settled ++ [(i, .error e), (j, .ok ())]⟩,
      ?_, ?_, ?_, ?_, ?_⟩ <;> simp [qstep, hitems, hfl]

/-- Witness for C8: in a two-item queue the head fails with `"x"` and the
second item still succeeds. -/
theorem queue_failure_isolated_witness :
    (QState.mk [1, 2] true [1] []).items = 1 :: 2 :: [] ∧
    (QState.mk [1, 2] true [1] []).inFlight = [1] ∧
    (∃ s1 s2,
      qstep (QState.mk [1, 2] true [1] []) (.complete (.error "x")) =
        some s1 ∧
      qstep s1 (.complete (.ok ())) = some s2 ∧
      s1.settled = (QState.mk [1, 2] true [1] []).settled ++
        [(1, .error "x")] ∧
      s2.settled = (QState.mk [1, 2] true [1] []).settled ++
        [(1, .error "x"), (2, .ok ())] ∧
      s2.items = []) :=
  ⟨by decide, by decide,
    queue_failure_isolated (QState.mk [1, 2] true [1] []) 1 1 2 [] "x"
      (by decide) (by decide)⟩

/-! ## Claim theorems: reachable states and stale waiters -/

/-- Every edge target in the frozen adjacency map is a lifecycle label. -/
lemma lc_lookup_targets (cur : String) (ts : List String)
    (hl : List.lookup cur lcTransitions = some ts) :
    ∀ t ∈ ts, t ∈ lifecycleStates := by
  have hmem : (cur, ts) ∈ lcTransitions :=
    mem_of_lookup_eq_some lcTransitions cur ts hl
  simp [lcTransitions] at hmem
  rcases hmem with ⟨_, rfl⟩ | ⟨_, rfl⟩ | ⟨_, rfl⟩ | ⟨_, rfl⟩ | ⟨_, rfl⟩ |
    ⟨_, rfl⟩ | ⟨_, rfl⟩ | ⟨_, rfl⟩ | ⟨_, rfl⟩ <;>
    intro t ht <;> fin_cases ht <;> decide

/-- On a machine with the frozen graph, any allowed target state is one
of the nine lifecycle labels. -/
lemma lc_allows_mem (sm : StateMachine) (h : sm.transitions = lcTransitions)
    (t : String) (ha : sm.allows t = true) : t ∈ lifecycleStates := by
  unfold StateMachine.allows at ha
  rw [h] at ha
  rcases hl : List.lookup sm.current lcTransitions with _ | ts <;>
    rw [hl] at ha
  · simp at ha
  · simp at ha
    exact lc_lookup_targets sm.current ts hl t ha

/-- One queue-processor execution leaves the machine unchanged, performs
the interim transition only, or performs the interim and then the final
transition. -/
lemma runStep_sm_cases (ops : String → CbResult) (lc : Lifecycle)
    (d : Descriptor) :
    (Lifecycle.runStep ops lc d).1.sm = lc.sm ∨
    (lc.sm.allows d.interimState = true ∧
      (Lifecycle.runStep ops lc d).1.sm =
        lc.sm.doTransition d.interimState) ∨
    (lc.sm.allows d.interimState = true ∧
      (lc.sm.doTransition d.interimState).allows d.toState = true ∧
      (Lifecycle.runStep ops lc d).1.sm =
        (lc.sm.doTransition d.interimState).doTransition d.toState) := by
  by_cases hA : lc.sm.allows d.interimState = true
  · rcases hop : ops d.opName with _ | msg
    · by_cases hF : (((lc.sm.doTransition d.interimState).current ==
          d.interimState) &&
          (lc.sm.doTransition d.interimState).allows d.toState) = true
      · right; right
        refine ⟨hA, (Bool.and_eq_true _ _ |>.mp hF).2, ?_⟩
        unfold Lifecycle.runStep run
        simp [hA, hop, hF]
      · right; left
        refine ⟨hA, ?_⟩
        unfold Lifecycle.runStep run
        simp only [Bool.not_eq_true] at hF
        simp [hA, hop, hF]
    · right; left
      refine ⟨hA, ?_⟩
      unfold Lifecycle.runStep run
      simp [hA, hop]
  · left
    unfold Lifecycle.runStep run
    simp only [Bool.not_eq_true] at hA
    simp [hA]

/-- The controller invariant: the machine carries the frozen graph and its
current state is one of the nine lifecycle labels. -/
def LcInv (lc : Lifecycle) : Prop :=
  lc.sm.transitions = lcTransitions ∧ lc.sm.current ∈ lifecycleStates

/-- A transition never changes the adjacency map. -/
lemma doTransition_transitions (sm : StateMachine) (t : String) :
    (sm.doTransition t).transitions = sm.transitions := rfl

/-- An `until` query changes neither the current state nor the graph. -/
lemma until_fields (sm : StateMachine) (q : String) :
    ((sm.until q).1).current = sm.current ∧
    ((sm.until q).1).transitions = sm.transitions := by
  unfold StateMachine.until
  by_cases hc : (sm.current == q) = true
  · simp [hc]
  · simp only [Bool.not_eq_true] at hc
    rcases hl : sm.waiters.lookup q with _ | h <;> simp [hc, hl]

/-- One queue-processor execution preserves the controller invariant. -/
lemma runStep_LcInv (ops : String → CbResult) (lc : Lifecycle)
    (d : Descriptor) (h : LcInv lc) :
    LcInv (Lifecycle.runStep ops lc d).1 := by
  rcases h with ⟨ht, hc⟩
  rcases runStep_sm_cases ops lc d with hs | ⟨hA, hs⟩ | ⟨hA, hA2, hs⟩
  · exact ⟨by rw [hs, ht], by rw [hs]; exact hc⟩
  · refine ⟨by rw [hs, doTransition_transitions, ht], ?_⟩
    rw [hs]
    exact lc_allows_mem lc.sm ht d.interimState hA
  · refine ⟨by rw [hs, doTransition_transitions, doTransition_transitions,
      ht], ?_⟩
    rw [hs]
    exact lc_allows_mem (lc.sm.doTransition d.interimState)
      (by rw [doTransition_transitions, ht]) d.toState hA2

/-- Every public call preserves the controller invariant. -/
lemma applyOp_LcInv (ops : String → CbResult) (lc : Lifecycle) (op : LOp)
    (h : LcInv lc) : LcInv (Lifecycle.applyOp ops lc op) := by
  cases op with
  | openCall => exact runStep_LcInv ops lc openDesc h
  | closeCall => exact runStep_LcInv ops lc closeDesc h
  | suspendCall => exact runStep_LcInv ops lc suspendDesc h
  | resumeCall => exact runStep_LcInv ops lc resumeDesc h
  | resetCall =>
    exact ⟨rfl, by simp [Lifecycle.applyOp, Lifecycle.reset, lifecycleStates]⟩
  | transitionCall operator i t =>
    unfold Lifecycle.applyOp Lifecycle.genericTransition
    by_cases hop : operatorNames.contains operator = true
    · simp only [hop, if_true]
      exact runStep_LcInv ops lc ⟨operator, i, t⟩ h
    · simp only [Bool.not_eq_true] at hop
      simp only [hop]
      exact h
  | untilCall q =>
    rcases until_fields lc.sm q with ⟨h1, h2⟩
    exact ⟨by simp [Lifecycle.applyOp, h2, h.1],
      by simp [Lifecycle.applyOp, h1]; exact h.2⟩

/-- Any sequence of public calls preserves the controller invariant. -/
lemma applyOps_LcInv (ops : String → CbResult) (lc : Lifecycle)
    (l : List LOp) (h : LcInv lc) :
    LcInv (Lifecycle.applyOps ops lc l) := by
  induction l generalizing lc with
  | nil => exact h
  | cons op l ih =>
    exact ih (Lifecycle.applyOp ops lc op) (applyOp_LcInv ops lc op h)

/-- C9: under every sequence of public controller calls — the four named
operations, `reset`, `until`, and the generic `transition` with arbitrary
caller-chosen operator and state labels — the controller's current state
stays within the nine lifecycle labels, because the machine only ever
moves to targets listed in the frozen adjacency map. -/
theorem lifecycle_state_always_one_of_nine (ops : String → CbResult)
    (l : List LOp) :
    (Lifecycle.applyOps ops Lifecycle.mkNew l).sm.current ∈
      lifecycleStates := by
  exact (applyOps_LcInv ops Lifecycle.mkNew l
    ⟨rfl, by simp [Lifecycle.mkNew, lifecycleStates]⟩).2

/-- The machine can never resolve handle `n`: `n` predates `nextId`, is
not among the resolved ids, and hangs on no registered waiter slot. -/
def smAvoid (n : Nat) (sm : StateMachine) : Prop :=
  n < sm.nextId ∧ n ∉ sm.resolved ∧ ∀ p ∈ sm.waiters, p.2 ≠ n

/-- A transition on a machine that avoids handle `n` still avoids it: it
resolves only handles registered in the waiter table. -/
lemma doTransition_avoid (n : Nat) (sm : StateMachine) (t : String)
    (h : smAvoid n sm) : smAvoid n (sm.doTransition t) := by
  rcases h with ⟨h1, h2, h3⟩
  refine ⟨h1, ?_, ?_⟩
  · unfold StateMachine.doTransition
    rcases hl : sm.waiters.lookup t with _ | w
    · simpa using h2
    · have hw : (t, w) ∈ sm.waiters := mem_of_lookup_eq_some _ _ _ hl
      have : w ≠ n := h3 (t, w) hw
      simp [h2, this]
      intro hc
      exact absurd hc.symm this
  · intro p hp
    exact h3 p (List.mem_of_mem_filter hp)

/-- Registering a new waiter keeps avoiding handle `n`: fresh handles are
drawn above `nextId`, which exceeds `n`. -/
lemma until_avoid (n : Nat) (sm : StateMachine) (q : String)
    (h : smAvoid n sm) : smAvoid n ((sm.until q).1) := by
  rcases h with ⟨h1, h2, h3⟩
  unfold StateMachine.until
  by_cases hc : (sm.current == q) = true
  · simp only [hc, if_true]
    exact ⟨h1, h2, h3⟩
  · simp only [hc, Bool.false_eq_true, if_false]
    rcases hl : sm.waiters.lookup q with _ | w <;> dsimp only
    · refine ⟨Nat.lt_succ_of_lt h1, h2, ?_⟩
      intro p hp
      rcases List.mem_append.mp hp with hold | hnew
      · exact h3 p hold
      · simp at hnew
        rw [hnew]
        exact Nat.ne_of_gt h1
    · exact ⟨h1, h2, h3⟩

/-- One queue-processor execution preserves handle avoidance. -/
lemma runStep_avoid (ops : String → CbResult) (lc : Lifecycle)
    (d : Descriptor) (n : Nat) (h : smAvoid n lc.sm) :
    smAvoid n (Lifecycle.runStep ops lc d).1.sm := by
  rcases runStep_sm_cases ops lc d with hs | ⟨_, hs⟩ | ⟨_, _, hs⟩
  · rw [hs]; exact h
  · rw [hs]; exact doTransition_avoid n lc.sm d.interimState h
  · rw [hs]
    exact doTransition_avoid n _ d.toState
      (doTransition_avoid n lc.sm d.interimState h)

/-- Every public call preserves handle avoidance. -/
lemma applyOp_avoid (ops : String → CbResult) (lc : Lifecycle) (op : LOp)
    (n : Nat) (h : smAvoid n lc.sm) :
    smAvoid n (Lifecycle.applyOp ops lc op).sm := by
  cases op with
  | openCall => exact runStep_avoid ops lc openDesc n h
  | closeCall => exact runStep_avoid ops lc closeDesc n h
  | suspendCall => exact runStep_avoid ops lc suspendDesc n h
  | resumeCall => exact runStep_avoid ops lc resumeDesc n h
  | resetCall =>
    rcases h with ⟨h1, h2, _⟩
    exact ⟨h1, h2, by simp [Lifecycle.applyOp, Lifecycle.reset]⟩
  | transitionCall operator i t =>
    unfold Lifecycle.applyOp Lifecycle.genericTransition
    by_cases hop : operatorNames.contains operator = true
    · simp only [hop, if_true]
      exact runStep_avoid ops lc ⟨operator, i, t⟩ n h
    · simp only [Bool.not_eq_true] at hop
      simp only [hop]
      exact h
  | untilCall q => exact until_avoid n lc.sm q h

/-- Any sequence of public calls preserves handle avoidance. -/
lemma applyOps_avoid (ops : String → CbResult) (lc : Lifecycle)
    (l : List LOp) (n : Nat) (h : smAvoid n lc.sm) :
    smAvoid n (Lifecycle.applyOps ops lc l).sm := by
  induction l generalizing lc with
  | nil => exact h
  | cons op l ih =>
    exact ih (Lifecycle.applyOp ops lc op) (applyOp_avoid ops lc op n h)

/-- C10: a waiter handle obtained from `until S` before `reset()` (while
`S` was not yet reached, hence a `handle`, not an immediate resolution) is
bound to the discarded machine: no sequence of operations performed after
the reset ever resolves it, even when the replacement machine reaches
`S`. -/
theorem until_handle_dead_after_reset (ops : String → CbResult)
    (lc : Lifecycle) (S : String) (hdl : Nat) (sm1 : StateMachine)
    (l : List LOp)
    (hwB : ∀ p ∈ lc.sm.waiters, p.2 < lc.sm.nextId)
    (hu : lc.sm.until S = (sm1, .handle hdl))
    (hur : hdl ∉ sm1.resolved) :
    hdl ∉ (Lifecycle.applyOps ops
      (Lifecycle.reset { lc with sm := sm1 }) l).sm.resolved := by
  have hbase : smAvoid hdl (Lifecycle.reset { lc with sm := sm1 }).sm := by
    have hn : hdl < sm1.nextId := by
      unfold StateMachine.until at hu
      split at hu
      · simp at hu
      · split at hu
        · rename_i w hl
          rcases hu with ⟨rfl, rfl⟩
          exact hwB (S, hdl) (mem_of_lookup_eq_some _ _ _ hl)
        · rcases hu with ⟨rfl, rfl⟩
          exact Nat.lt_succ_self _
    exact ⟨hn, hur, by simp [Lifecycle.reset]⟩
  exact (applyOps_avoid ops (Lifecycle.reset { lc with sm := sm1 }) l
    hdl hbase).2.1

/-- Witness for C10: handle 0 registered for `opened` on a fresh
controller stays unresolved after a reset followed by two opens, although
the replacement machine does reach `opened`. -/
theorem until_handle_dead_after_reset_witness :
    (∀ p ∈ Lifecycle.mkNew.sm.waiters, p.2 < Lifecycle.mkNew.sm.nextId) ∧
    Lifecycle.mkNew.sm.until "opened" =
      (StateMachine.mk "init" lcTransitions [("opened", 0)] 1 [],
        .handle 0) ∧
    (0 : Nat) ∉ (StateMachine.mk "init" lcTransitions [("opened", 0)] 1
      []).resolved ∧
    (Lifecycle.applyOps opsOk
      (Lifecycle.reset { Lifecycle.mkNew with
        sm := StateMachine.mk "init" lcTransitions [("opened", 0)] 1 [] })
      [LOp.openCall, LOp.openCall]).sm.current = "opened" ∧
    (0 : Nat) ∉ (Lifecycle.applyOps opsOk
      (Lifecycle.reset { Lifecycle.mkNew with
        sm := StateMachine.mk "init" lcTransitions [("opened", 0)] 1 [] })
      [LOp.openCall, LOp.openCall]).sm.resolved :=
  ⟨by simp [Lifecycle.mkNew], by decide, by decide, by decide,
    until_handle_dead_after_reset opsOk Lifecycle.mkNew "opened" 0
      (StateMachine.mk "init" lcTransitions [("opened", 0)] 1 [])
      [LOp.openCall, LOp.openCall] (by simp [Lifecycle.mkNew]) (by decide)
      (by decide)⟩
